import Mathlib

/-!
Verification of the sitef worker API (Hono-based Cloudflare worker).

The development shallowly embeds the worker's request handlers:
  * the origin-guard middleware (`parseAllowedOrigins`, `findMatchingOrigin`,
    the `app.use` middleware) from `worker.ts`,
  * the D1-backed `/projects` CRUD handlers from the full D1 routes file
    (list / get / post / patch / delete), with the D1 `projects` table
    modelled as a Lean list of rows and the SQL statements by their
    documented relational semantics,
  * the Supabase create-payload construction from the Supabase variant of
    `projects.post`,
  * `parsePositiveInt` / `coerceNumber` and the `/media/pexels` parameter
    handling,
  * the `/ai/complete` handler.

JavaScript string primitives (`trim`, `split`, `Number.parseInt`) are
re-implemented at the `List Char` level so that every definition is
executable by the kernel.  `.*` in the compiled origin wildcard regex is
modelled as "any sequence of characters": HTTP header values cannot contain
the line terminators excluded by JavaScript's `.`.
-/

/-- Whitespace recognised by JavaScript `trim` / `parseInt` (ASCII
whitespace, NBSP and the BOM; the remaining Unicode space code points do
not occur in the inputs handled here). -/
def jsIsWhitespace (c : Char) : Bool :=
  c.toNat = 9 || c.toNat = 10 || c.toNat = 11 || c.toNat = 12 || c.toNat = 13 ||
  c.toNat = 32 || c.toNat = 160 || c.toNat = 65279

/-- Char-level body of JavaScript `String.prototype.trim`. -/
def trimChars (cs : List Char) : List Char :=
  ((cs.dropWhile jsIsWhitespace).reverse.dropWhile jsIsWhitespace).reverse

/-- JavaScript `s.trim()`. -/
def jsTrim (s : String) : String :=
  String.mk (trimChars s.data)

/-- Longest leading run of decimal digits (the digits consumed by
`Number.parseInt(s, 10)` after whitespace and sign). -/
def leadDigits : List Char → List Char
  | [] => []
  | c :: cs => if c.isDigit then c :: leadDigits cs else []

/-- Numeric value of a digit string. -/
def digitsToNat (ds : List Char) : Nat :=
  ds.foldl (fun acc c => acc * 10 + (c.toNat - 48)) 0

/-- `Number.parseInt(s, 10)`: skip leading whitespace, read an optional
sign, then the longest run of decimal digits; `none` models `NaN` (no
digits found).  Trailing characters are ignored, exactly as in JS. -/
def jsParseInt (s : String) : Option Int :=
  let cs := s.data.dropWhile jsIsWhitespace
  let neg : Bool := match cs with
    | c :: _ => c = '-'
    | [] => false
  let body := match cs with
    | c :: rest => if c = '-' ∨ c = '+' then rest else cs
    | [] => []
  match leadDigits body with
  | [] => none
  | ds => some (if neg then -(digitsToNat ds : Int) else (digitsToNat ds : Int))

/-- JavaScript `str.split(sep)` for a one-character separator. -/
def splitOnChar (sep : Char) : List Char → List (List Char)
  | [] => [[]]
  | c :: rest =>
    let r := splitOnChar sep rest
    if c = sep then [] :: r
    else match r with
      | h :: t => (c :: h) :: t
      | [] => [[c]]

/-- Kernel-reducible lexicographic order on char lists (code-point order);
models SQLite TEXT comparison of ISO-8601 `created_at` strings. -/
def lexLe : List Char → List Char → Bool
  | [], _ => true
  | _ :: _, [] => false
  | a :: as, b :: bs =>
    if a.toNat < b.toNat then true
    else if b.toNat < a.toNat then false
    else lexLe as bs

/-! ## Data model: project records and JSON request bodies -/

/-- A row of the `projects` table (`id, name, description, created_at`). -/
structure ProjectRecord where
  id : Int
  name : String
  description : Option String
  created_at : String
  deriving DecidableEq

/-- The JSON values the handlers inspect with `typeof` checks: a string, an
explicit `null`, a number, or anything else. -/
inductive JVal where
  | jstr : String → JVal
  | jnull : JVal
  | jnum : Int → JVal
  | jother : JVal
  deriving DecidableEq

/-- Parsed body of a create / update request: the `name` and `description`
fields, each possibly absent.  A failed `c.req.json()` is modelled as
`none` at the `Option ReqBody` level. -/
structure ReqBody where
  name : Option JVal
  description : Option JVal
  deriving DecidableEq

/-- Bodies of the JSON responses produced by the project handlers. -/
inductive RespBody where
  | errorMsg : String → RespBody
  | record : ProjectRecord → RespBody
  | records : List ProjectRecord → RespBody
  | okTrue : RespBody
  | jsonNull : RespBody
  deriving DecidableEq

/-- An HTTP status plus JSON body. -/
structure Resp where
  status : Nat
  body : RespBody
  deriving DecidableEq

/-- Result of running a project handler: the response, the `projects`
table afterwards, and whether the handler issued any statement against the
backend (false for requests rejected by validation alone). -/
structure HandlerOut where
  resp : Resp
  store : List ProjectRecord
  consulted : Bool
  deriving DecidableEq

/-! ## D1 project handlers (full D1 routes variant) -/

/-- Descending order on `created_at` (`ORDER BY created_at DESC`). -/
def createdDesc (a b : ProjectRecord) : Prop :=
  lexLe b.created_at.data a.created_at.data = true

instance : DecidableRel createdDesc :=
  fun _ _ => inferInstanceAs (Decidable (_ = true))

/-- `GET /projects`: all rows ordered by `created_at` descending. -/
def listProjects (store : List ProjectRecord) : Resp :=
  Resp.mk 200 (RespBody.records (List.insertionSort createdDesc store))

/-- `GET /projects/:id`: parse the id (`Number.parseInt(..., 10)`), 400 on
`NaN`, then `SELECT ... WHERE id = ?` and 404 when no row matches. -/
def getProject (store : List ProjectRecord) (idParam : String) : HandlerOut :=
  match jsParseInt idParam with
  | none => HandlerOut.mk (Resp.mk 400 (RespBody.errorMsg "Invalid project id")) store false
  | some id =>
    match store.find? (fun r => r.id == id) with
    | none => HandlerOut.mk (Resp.mk 404 (RespBody.errorMsg "Project not found")) store true
    | some r => HandlerOut.mk (Resp.mk 200 (RespBody.record r)) store true

/-- Description column value bound by the D1 create handler:
`typeof body.description === 'string' ? body.description.trim() : null`. -/
def d1CreateDesc (desc : Option JVal) : Option String :=
  match desc with
  | some (JVal.jstr d) => some (jsTrim d)
  | _ => none

/-- `POST /projects` (D1 variant): reject unless the body parsed and
`name` is a string that is non-empty after trim; otherwise insert the
trimmed name, the bound description and the server timestamp.  `nextId` is
the rowid assigned by the database (`last_insert_rowid()`); `dbOk` models
the `success` flag of the `run()` result. -/
def postProject (store : List ProjectRecord) (nextId : Int) (now : String)
    (dbOk : Bool) (body : Option ReqBody) : HandlerOut :=
  match body with
  | none => HandlerOut.mk (Resp.mk 400 (RespBody.errorMsg "Name is required")) store false
  | some b =>
    match b.name with
    | some (JVal.jstr nm) =>
      if (jsTrim nm).length = 0 then
        HandlerOut.mk (Resp.mk 400 (RespBody.errorMsg "Name is required")) store false
      else if dbOk then
        let rec0 := ProjectRecord.mk nextId (jsTrim nm) (d1CreateDesc b.description) now
        HandlerOut.mk (Resp.mk 201 (RespBody.record rec0)) (store ++ [rec0]) true
      else
        HandlerOut.mk (Resp.mk 500 (RespBody.errorMsg "Failed to create project")) store true
    | _ => HandlerOut.mk (Resp.mk 400 (RespBody.errorMsg "Name is required")) store false

/-- The `description` update computed by the patch handlers:
`some (some d)` sets a trimmed string, `some none` sets NULL, `none`
leaves the column untouched. -/
def descUpdate (desc : Option JVal) : Option (Option String) :=
  match desc with
  | some (JVal.jstr d) => some (some (jsTrim d))
  | some JVal.jnull => some none
  | _ => none

/-- Apply the accumulated `SET` clauses to one row. -/
def applyUpd (nameUpd : Option String) (descUpd : Option (Option String))
    (r : ProjectRecord) : ProjectRecord :=
  ProjectRecord.mk r.id (nameUpd.getD r.name) (descUpd.getD r.description) r.created_at

/-- The `UPDATE ... WHERE id = ?` once validation has passed: 400 when no
`SET` clause was accumulated, 404 when no row changed, otherwise the
re-selected updated row. -/
def patchApply (store : List ProjectRecord) (id : Int)
    (nameUpd : Option String) (descUpd : Option (Option String)) : HandlerOut :=
  if nameUpd.isNone ∧ descUpd.isNone then
    HandlerOut.mk (Resp.mk 400 (RespBody.errorMsg "No fields provided to update")) store false
  else if store.any (fun r => r.id == id) then
    let store2 := store.map (fun r => if r.id == id then applyUpd nameUpd descUpd r else r)
    match store2.find? (fun r => r.id == id) with
    | some r => HandlerOut.mk (Resp.mk 200 (RespBody.record r)) store2 true
    | none => HandlerOut.mk (Resp.mk 200 RespBody.jsonNull) store2 true
  else
    HandlerOut.mk (Resp.mk 404 (RespBody.errorMsg "Project not found")) store true

/-- `PATCH /projects/:id` (D1 variant): id parse, body parse, the
name-empty early return, then `patchApply`. -/
def patchProject (store : List ProjectRecord) (idParam : String)
    (body : Option ReqBody) : HandlerOut :=
  match jsParseInt idParam with
  | none => HandlerOut.mk (Resp.mk 400 (RespBody.errorMsg "Invalid project id")) store false
  | some id =>
    match body with
    | none => HandlerOut.mk (Resp.mk 400 (RespBody.errorMsg "Invalid payload")) store false
    | some b =>
      match b.name with
      | some (JVal.jstr nm) =>
        if (jsTrim nm).length = 0 then
          HandlerOut.mk (Resp.mk 400 (RespBody.errorMsg "Name cannot be empty")) store false
        else patchApply store id (some (jsTrim nm)) (descUpdate b.description)
      | _ => patchApply store id none (descUpdate b.description)

/-- `DELETE /projects/:id` (D1 variant). -/
def deleteProject (store : List ProjectRecord) (idParam : String) : HandlerOut :=
  match jsParseInt idParam with
  | none => HandlerOut.mk (Resp.mk 400 (RespBody.errorMsg "Invalid project id")) store false
  | some id =>
    if store.any (fun r => r.id == id) then
      HandlerOut.mk (Resp.mk 200 RespBody.okTrue) (store.filter (fun r => !(r.id == id))) true
    else
      HandlerOut.mk (Resp.mk 404 (RespBody.errorMsg "Project not found")) store true

/-! ## Supabase create-payload construction (Supabase variant of `post`) -/

/-- A JSON value inside the payload POSTed to Supabase. -/
inductive PayloadVal where
  | pstr : String → PayloadVal
  | pnull : PayloadVal
  deriving DecidableEq

/-- The object the Supabase create handler sends: always `name` (trimmed)
and `created_at`; `description` only when the field was a string (trimmed)
or an explicit `null` — an omitted field contributes no key. -/
def buildCreatePayload (nameField : String) (now : String)
    (desc : Option JVal) : List (String × PayloadVal) :=
  let base := [("name", PayloadVal.pstr (jsTrim nameField)),
               ("created_at", PayloadVal.pstr now)]
  match desc with
  | some (JVal.jstr d) => base ++ [("description", PayloadVal.pstr (jsTrim d))]
  | some JVal.jnull => base ++ [("description", PayloadVal.pnull)]
  | _ => base

/-! ## Origin guard -/

/-- A compiled allow-list entry (`{ value, regex? }`): `isWildcard` records
whether a regex was compiled, i.e. whether the entry contains `*`. -/
structure OriginMatcher where
  value : String
  isWildcard : Bool
  deriving DecidableEq

/-- Compile one trimmed entry. -/
def mkMatcher (origin : String) : OriginMatcher :=
  OriginMatcher.mk origin (origin.data.any (fun c => c = '*'))

/-- `parseAllowedOrigins`: split the configured string on commas, trim each
entry, drop empty entries, compile each remaining entry. -/
def parseAllowedOrigins (raw : String) : List OriginMatcher :=
  (((splitOnChar ',' raw.data).map (fun cs => String.mk (trimChars cs))).filter
    (fun o => o.length ≠ 0)).map mkMatcher

/-- Matcher for the regex fragment `.*q1.*q2...*qk$`: there are strings
interleaving the literal chunks `qs` that complete `s`. -/
def starTail : List (List Char) → List Char → Bool
  | [], s => s.isEmpty
  | q :: qs, s =>
    (List.range (s.length + 1)).any fun i =>
      ((s.drop i).take q.length == q) && starTail qs (s.drop (i + q.length))

/-- Matcher for the whole compiled pattern
`^p0.*p1...*pk$` given the chunks `ps = entry.split('*')`. -/
def globMatch (ps : List (List Char)) (s : List Char) : Bool :=
  match ps with
  | [] => s.isEmpty
  | [p] => s == p
  | p :: qs => (s.take p.length == p) && starTail qs (s.drop p.length)

/-- Does a compiled matcher accept a request origin?  Wildcard entries use
the compiled pattern, other entries string equality. -/
def matcherAccepts (m : OriginMatcher) (s : String) : Bool :=
  if m.isWildcard then globMatch (splitOnChar '*' m.value.data) s.data
  else m.value == s

/-- `findMatchingOrigin`: `null` for an absent or empty origin, otherwise
the first accepting matcher wins — the request origin is echoed for a
wildcard match, the entry value for an exact match. -/
def findMatchingOrigin (requestOrigin : Option String)
    (allowed : List OriginMatcher) : Option String :=
  match requestOrigin with
  | none => none
  | some ro =>
    if ro = "" then none
    else
      match allowed.find? (fun m => matcherAccepts m ro) with
      | none => none
      | some m => if m.isWildcard then some ro else some m.value

/-- HTTP methods routed by the app. -/
inductive Method where
  | GET | POST | PATCH | DELETE | OPTIONS | other
  deriving DecidableEq

/-- The parts of an inbound request the middleware inspects. -/
structure AppRequest where
  method : Method
  path : String
  origin : Option String
  deriving DecidableEq

/-- An outgoing response: status, headers and optional JSON body. -/
structure HttpResponse where
  status : Nat
  headers : List (String × String)
  jsonBody : Option RespBody
  deriving DecidableEq

/-- The three headers stamped on every non-rejected response. -/
def corsBaseHeaders : List (String × String) :=
  [("Access-Control-Allow-Methods", "GET,POST,PATCH,DELETE,OPTIONS"),
   ("Access-Control-Allow-Headers", "Content-Type"),
   ("Access-Control-Max-Age", "86400")]

/-- `Access-Control-Allow-Origin` / `Vary` when an origin matched. -/
def originHeaders (matched : Option String) : List (String × String) :=
  match matched with
  | some o => [("Access-Control-Allow-Origin", o), ("Vary", "Origin")]
  | none => []

/-- Truthiness of the `Origin` header (`undefined` and `''` are falsy). -/
def originTruthy (o : Option String) : Bool :=
  match o with
  | none => false
  | some s => !(s = "")

/-- The `app.notFound` response. -/
def notFoundResponse : HttpResponse :=
  HttpResponse.mk 404 [] (some (RespBody.errorMsg "Not found"))

/-- The `app.use('*')` middleware composed with the downstream router
`handler`: reject 403 when a truthy origin matches no entry; answer
`OPTIONS` directly with an empty 204 carrying the CORS headers; otherwise
run the handler and append the CORS headers to its response. -/
def appHandle (raw : String) (handler : AppRequest → HttpResponse)
    (req : AppRequest) : HttpResponse :=
  let matched := findMatchingOrigin req.origin (parseAllowedOrigins raw)
  if originTruthy req.origin && matched.isNone then
    HttpResponse.mk 403 [] (some (RespBody.errorMsg "Origin not allowed"))
  else if req.method == Method.OPTIONS then
    HttpResponse.mk 204 (originHeaders matched ++ corsBaseHeaders) none
  else
    let r := handler req
    HttpResponse.mk r.status (r.headers ++ originHeaders matched ++ corsBaseHeaders) r.jsonBody

/-! ## Media search proxy parameters -/

/-- `parsePositiveInt(value, fallback)`: fallback for an absent or falsy
value, a `NaN` parse, or a non-positive parse. -/
def parsePositiveInt (value : Option String) (fallback : Int) : Int :=
  match value with
  | none => fallback
  | some v =>
    if v = "" then fallback
    else
      match jsParseInt v with
      | none => fallback
      | some n => if n ≤ 0 then fallback else n

/-- `coerceNumber(value, fallback)` used when normalising the upstream
response. -/
def coerceNumber (value : Option JVal) (fallback : Int) : Int :=
  match value with
  | some (JVal.jnum n) => n
  | some (JVal.jstr s) =>
    match jsParseInt s with
    | some n => n
    | none => fallback
  | _ => fallback

/-- The pair forwarded to the Pexels API and reused as response fallbacks:
`page` and `per_page` from the query string. -/
def pexelsParams (pageQ perPageQ : Option String) : Int × Int :=
  (parsePositiveInt pageQ 1, parsePositiveInt perPageQ 10)

/-- Page fields of the normalised Pexels response: the upstream value when
coercible, else the request's own computed value. -/
def pexelsNormalizedPage (upstream : Option JVal) (computed : Int) : Int :=
  coerceNumber upstream computed

/-- The spec's characterisation of the parsed parameter: the parsed value
when it is a positive integer, the default whenever the parameter is
absent, non-numeric, zero or negative. -/
def specPositiveIntOrDefault (q : Option String) (d : Int) : Int :=
  match q with
  | none => d
  | some v =>
    match jsParseInt v with
    | none => d
    | some n => if 0 < n then n else d

/-! ## Completion proxy -/

/-- Parsed body of `POST /ai/complete`. -/
structure AiBody where
  prompt : Option JVal
  model : Option JVal
  deriving DecidableEq

/-- Outcome of the upstream completion call: an HTTP response with a
status and the extracted first-choice message content, or a thrown network
error. -/
inductive AiUpstream where
  | response : Nat → Option String → AiUpstream
  | networkFail : AiUpstream
  deriving DecidableEq

/-- Body of the `/ai/complete` response. -/
inductive AiRespBody where
  | err : String → AiRespBody
  | text : String → AiRespBody
  deriving DecidableEq

/-- Result of the `/ai/complete` handler, recording whether the upstream
API was called. -/
structure AiOut where
  status : Nat
  body : AiRespBody
  calledUpstream : Bool
  deriving DecidableEq

/-- The `/ai/complete` handler: configuration check, JSON parse, prompt
validation, then the upstream call with `response.ok` deciding between the
success path and the 502 error. -/
def aiComplete (apiKey : Option String) (body : Option AiBody)
    (upstream : AiUpstream) : AiOut :=
  match apiKey with
  | none => AiOut.mk 500 (AiRespBody.err "AI integration not configured") false
  | some key =>
    if key = "" then AiOut.mk 500 (AiRespBody.err "AI integration not configured") false
    else
      match body with
      | none => AiOut.mk 400 (AiRespBody.err "Invalid JSON payload") false
      | some b =>
        match b.prompt with
        | some (JVal.jstr p) =>
          if (jsTrim p).length = 0 then
            AiOut.mk 400 (AiRespBody.err "Prompt is required") false
          else
            match upstream with
            | AiUpstream.networkFail =>
              AiOut.mk 502 (AiRespBody.err "AI request failed") true
            | AiUpstream.response st content =>
              if 200 ≤ st ∧ st ≤ 299 then
                AiOut.mk 200 (AiRespBody.text ((content.map jsTrim).getD "")) true
              else
                AiOut.mk 502 (AiRespBody.err "AI request failed") true
        | _ => AiOut.mk 400 (AiRespBody.err "Prompt is required") false

/-- A prompt the handler rejects with 400: body present but the `prompt`
field missing, not a string, or empty after trim. -/
def promptRejected (b : AiBody) : Bool :=
  match b.prompt with
  | some (JVal.jstr p) => (jsTrim p).length = 0
  | _ => true

/-! ## Spec-side predicates and operation sequences -/

/-- Semantics of the regex fragment `.*q1.*q2...*qk$`: the string is an
interleaving of arbitrary fillers with the literal chunks, ending at the
last chunk. -/
def StarTailSem : List (List Char) → List Char → Prop
  | [], s => s = []
  | q :: qs, s => ∃ x y, s = x ++ q ++ y ∧ StarTailSem qs y

/-- Semantics of the whole wildcard pattern: each `*` of the entry stands
for an arbitrary substring, every other character is literal. -/
def GlobSem : List (List Char) → List Char → Prop
  | [], s => s = []
  | [p], s => s = p
  | p :: qs, s => ∃ y, s = p ++ y ∧ StarTailSem qs y

/-- The claim's semantics of one allow-list entry: a wildcard entry matches
the interleavings of its `*`-separated literal chunks, any other entry
matches only by string equality. -/
def EntrySem (entry s : String) : Prop :=
  if entry.data.any (fun c => c = '*') then
    GlobSem (splitOnChar '*' entry.data) s.data
  else entry = s

/-- A create request the handler rejects with 400: invalid JSON, missing or
non-string `name`, or `name` empty after trim. -/
def createRejected (body : Option ReqBody) : Bool :=
  match body with
  | none => true
  | some b =>
    match b.name with
    | some (JVal.jstr nm) => (jsTrim nm).length = 0
    | _ => true

/-- A patch body containing neither a string `name` nor a string-or-null
`description`. -/
def patchNoFields (b : ReqBody) : Bool :=
  (match b.name with
   | some (JVal.jstr _) => false
   | _ => true) &&
  (match b.description with
   | some (JVal.jstr _) => false
   | some JVal.jnull => false
   | _ => true)

/-- The string has a leading integer in the sense of `parseInt`: optional
whitespace, an optional single sign, then at least one digit. -/
def HasLeadingInt (s : String) : Prop :=
  ∃ sign ds rest, s.data.dropWhile jsIsWhitespace = sign ++ ds ++ rest ∧
    (sign = [] ∨ sign = ['+'] ∨ sign = ['-']) ∧ ds ≠ [] ∧ ∀ c ∈ ds, c.isDigit

/-- A decimal numeral: an optional sign followed by one or more digits and
nothing else — the natural reading of a "numeric" id string. -/
def decimalNumeral (s : String) : Bool :=
  match s.data with
  | [] => false
  | c :: cs =>
    if c = '-' ∨ c = '+' then !cs.isEmpty && cs.all Char.isDigit
    else (c :: cs).all Char.isDigit

/-- Mutating operations against the projects resource. -/
inductive Op where
  | create : Int → String → Bool → Option ReqBody → Op
  | patch : String → Option ReqBody → Op
  | delete : String → Op
  deriving DecidableEq

/-- Apply one accepted operation to the stored table. -/
def applyOp (store : List ProjectRecord) : Op → List ProjectRecord
  | Op.create nextId now dbOk body => (postProject store nextId now dbOk body).store
  | Op.patch idParam body => (patchProject store idParam body).store
  | Op.delete idParam => (deleteProject store idParam).store

/-- Run a sequence of operations. -/
def runOps (store : List ProjectRecord) (ops : List Op) : List ProjectRecord :=
  ops.foldl applyOp store

/-- The stored-name invariant: no row has an empty or whitespace-only
name. -/
def NamesOk (store : List ProjectRecord) : Prop :=
  ∀ r ∈ store, jsTrim r.name ≠ ""

/-! ## Helper lemmas: strings, trim, parseInt -/

theorem stringMk_eq_empty_iff (cs : List Char) : String.mk cs = "" ↔ cs = [] := by
  constructor
  · intro h
    have : (String.mk cs).data = ("" : String).data := by rw [h]
    simpa using this
  · intro h
    exact h ▸ rfl

theorem jsTrim_data (s : String) : (jsTrim s).data = trimChars s.data := rfl

theorem trimChars_eq_nil_iff (cs : List Char) :
    trimChars cs = [] ↔ ∀ c ∈ cs, jsIsWhitespace c := by
  unfold trimChars
  rw [List.reverse_eq_nil_iff, List.dropWhile_eq_nil_iff]
  constructor
  · intro h c hc
    by_cases hw : jsIsWhitespace c
    · exact hw
    · exfalso
      have hsplit := List.takeWhile_append_dropWhile jsIsWhitespace cs
      have hmem : c ∈ cs.takeWhile jsIsWhitespace ∨ c ∈ cs.dropWhile jsIsWhitespace := by
        rw [← List.mem_append, hsplit]; exact hc
      rcases hmem with hm | hm
      · exact hw (List.mem_takeWhile_imp hm)
      · exact hw (h c (List.mem_reverse.mpr hm))
  · intro h c hc
    exact h c ((List.dropWhile_sublist jsIsWhitespace).subset (List.mem_reverse.mp hc))

theorem trimChars_has_solid (cs : List Char) (h : trimChars cs ≠ []) :
    ∃ c ∈ trimChars cs, jsIsWhitespace c = false := by
  unfold trimChars at h ⊢
  set u := ((cs.dropWhile jsIsWhitespace).reverse.dropWhile jsIsWhitespace) with hu
  have hune : u ≠ [] := by
    intro hnil
    rw [hnil] at h
    exact h rfl
  refine ⟨u.head hune, List.mem_reverse.mpr (List.head_mem hune), ?_⟩
  exact List.head_dropWhile_not jsIsWhitespace _ hune

theorem jsTrim_jsTrim_ne_empty (s : String) (h : (jsTrim s).length ≠ 0) :
    jsTrim (jsTrim s) ≠ "" := by
  have hne : trimChars s.data ≠ [] := by
    intro hnil
    apply h
    show (trimChars s.data).length = 0
    rw [hnil]
    rfl
  obtain ⟨c, hc, hw⟩ := trimChars_has_solid s.data hne
  intro heq
  have : trimChars (trimChars s.data) = [] := by
    have := (stringMk_eq_empty_iff (trimChars (jsTrim s).data)).mp heq
    simpa [jsTrim_data] using this
  have hall := (trimChars_eq_nil_iff _).mp this
  have := hall c hc
  rw [hw] at this
  exact Bool.noConfusion this

theorem jsTrim_ne_empty_of_length (s : String) (h : (jsTrim s).length ≠ 0) :
    jsTrim s ≠ "" := by
  intro heq
  rw [heq] at h
  exact h rfl

theorem leadDigits_nil_iff (l : List Char) :
    leadDigits l = [] ↔ (match l with | [] => True | c :: _ => c.isDigit = false) := by
  cases l with
  | nil => simp [leadDigits]
  | cons c cs =>
    simp only [leadDigits]
    by_cases hd : c.isDigit
    · simp [hd]
    · simp [hd, Bool.eq_false_iff.mpr hd]

theorem jsParseInt_eq_none_iff (s : String) :
    jsParseInt s = none ↔ ¬ HasLeadingInt s := by
  unfold jsParseInt HasLeadingInt
  cases hcs : s.data.dropWhile jsIsWhitespace with
  | nil =>
    simp only [hcs, leadDigits]
    constructor
    · rintro - ⟨sign, ds, rest, heq, hsign, hne, hdig⟩
      rcases List.append_eq_nil.mp (List.append_eq_nil.mp heq.symm).1 with ⟨-, hds⟩
      exact hne hds
    · intro _
      trivial
  | cons c rest =>
    simp only [hcs]
    by_cases hsgn : c = '-' ∨ c = '+'
    · simp only [hsgn, if_pos, ite_true]
      constructor
      · intro hnone hhas
        obtain ⟨sign, ds, rest2, heq, hsign, hne, hdig⟩ := hhas
        have hld : leadDigits rest = [] := by
          cases h1 : leadDigits rest with
          | nil => rfl
          | cons d ds2 => simp [h1] at hnone
        rcases hsign with h0 | h0 | h0
        · subst h0
          obtain ⟨d, ds2, hds⟩ := List.exists_cons_of_ne_nil hne
          subst hds
          simp only [List.nil_append, List.cons_append] at heq
          have hcd : c = d := (List.cons_eq_cons.mp heq).1
          have : c.isDigit := by
            rw [hcd]
            exact hdig d (List.mem_cons_self d ds2)
          rcases hsgn with hc | hc <;> rw [hc] at this <;> simp [Char.isDigit] at this
        · subst h0
          simp only [List.cons_append, List.cons_eq_cons] at heq
          obtain ⟨d, ds2, hds⟩ := List.exists_cons_of_ne_nil hne
          subst hds
          have hrest : rest = (d :: ds2) ++ rest2 := heq.2
          have : leadDigits rest ≠ [] := by
            rw [hrest]
            have hd : d.isDigit := hdig d (List.mem_cons_self d ds2)
            simp [leadDigits, hd]
          exact this hld
        · subst h0
          simp only [List.cons_append, List.cons_eq_cons] at heq
          obtain ⟨d, ds2, hds⟩ := List.exists_cons_of_ne_nil hne
          subst hds
          have hrest : rest = (d :: ds2) ++ rest2 := heq.2
          have : leadDigits rest ≠ [] := by
            rw [hrest]
            have hd : d.isDigit := hdig d (List.mem_cons_self d ds2)
            simp [leadDigits, hd]
          exact this hld
      · intro hno
        cases h1 : leadDigits rest with
        | nil => rfl
        | cons d ds2 =>
          exfalso
          apply hno
          have hd : d.isDigit := by
            cases rest with
            | nil => simp [leadDigits] at h1
            | cons e es =>
              simp only [leadDigits] at h1
              by_cases he : e.isDigit
              · simp [he] at h1
                rw [← h1.1]
                exact he
              · simp [he] at h1
          have hrest : rest ≠ [] := by
            intro h2
            rw [h2] at h1
            simp [leadDigits] at h1
          obtain ⟨e, es, hes⟩ := List.exists_cons_of_ne_nil hrest
          have hed : e.isDigit := by
            rw [hes] at h1
            simp only [leadDigits] at h1
            by_cases he : e.isDigit
            · exact he
            · simp [he] at h1
          refine ⟨[c], [e], es, ?_, ?_, by simp, ?_⟩
          · rw [hes]
            simp
          · rcases hsgn with hc | hc
            · right; right; rw [hc]
            · right; left; rw [hc]
          · intro x hx
            rw [List.mem_singleton] at hx
            rw [hx]
            exact hed
    · simp only [hsgn, if_neg, ite_false]
      constructor
      · intro hnone hhas
        obtain ⟨sign, ds, rest2, heq, hsign, hne, hdig⟩ := hhas
        have hcnd : c.isDigit = false := by
          cases h1 : leadDigits (c :: rest) with
          | nil =>
            have := (leadDigits_nil_iff (c :: rest)).mp h1
            simpa using this
          | cons d ds2 => simp [h1] at hnone
        obtain ⟨d, ds2, hds⟩ := List.exists_cons_of_ne_nil hne
        subst hds
        rcases hsign with h0 | h0 | h0
        · subst h0
          simp only [List.nil_append, List.cons_append, List.cons_eq_cons] at heq
          have : c.isDigit := by
            rw [heq.1]
            exact hdig d (List.mem_cons_self d ds2)
          rw [hcnd] at this
          exact Bool.noConfusion this
        · subst h0
          simp only [List.cons_append, List.cons_eq_cons] at heq
          exact hsgn (Or.inr heq.1)
        · subst h0
          simp only [List.cons_append, List.cons_eq_cons] at heq
          exact hsgn (Or.inl heq.1)
      · intro hno
        cases h1 : leadDigits (c :: rest) with
        | nil => rfl
        | cons d ds2 =>
          exfalso
          apply hno
          have hcd : c.isDigit := by
            simp only [leadDigits] at h1
            by_cases hc : c.isDigit
            · exact hc
            · simp [hc] at h1
          exact ⟨[], [c], rest, by simp, Or.inl rfl, by simp, by
            intro x hx
            rw [List.mem_singleton] at hx
            rw [hx]
            exact hcd⟩

/-! ## Helper lemmas: wildcard matching -/

theorem starTail_iff (qs : List (List Char)) (s : List Char) :
    starTail qs s = true ↔ StarTailSem qs s := by
  induction qs generalizing s with
  | nil => simp [starTail, StarTailSem, List.isEmpty_iff]
  | cons q qs ih =>
    constructor
    · intro h
      simp only [starTail, List.any_eq_true, List.mem_range, Bool.and_eq_true,
        beq_iff_eq] at h
      obtain ⟨i, hi, hpm, hst⟩ := h
      refine ⟨s.take i, s.drop (i + q.length), ?_, (ih _).mp hst⟩
      have hdecomp : s.drop i = q ++ s.drop (i + q.length) := by
        conv_lhs => rw [← List.take_append_drop q.length (s.drop i)]
        rw [hpm, List.drop_drop, Nat.add_comm]
      conv_lhs => rw [← List.take_append_drop i s]
      rw [hdecomp, List.append_assoc]
    · rintro ⟨x, y, rfl, hsem⟩
      simp only [starTail, List.any_eq_true, List.mem_range, Bool.and_eq_true,
        beq_iff_eq]
      refine ⟨x.length, ?_, ?_, ?_⟩
      · have : x.length ≤ (x ++ q ++ y).length := by
          simp [List.length_append]
        omega
      · rw [List.append_assoc, List.drop_left, List.take_left]
      · have h1 : (x ++ q ++ y).drop (x.length + q.length) = y := by
          have : x.length + q.length = (x ++ q).length := (List.length_append x q).symm
          rw [this, List.drop_left]
        rw [h1]
        exact (ih y).mpr hsem

theorem globMatch_iff (ps : List (List Char)) (s : List Char) :
    globMatch ps s = true ↔ GlobSem ps s := by
  match ps with
  | [] => simp [globMatch, GlobSem, List.isEmpty_iff]
  | [p] => simp [globMatch, GlobSem]
  | p :: q :: qs =>
    simp only [globMatch, GlobSem, Bool.and_eq_true, beq_iff_eq]
    constructor
    · rintro ⟨hp, ht⟩
      refine ⟨s.drop p.length, ?_, (starTail_iff _ _).mp ht⟩
      conv_lhs => rw [← List.take_append_drop p.length s]
      rw [hp]
    · rintro ⟨y, rfl, hsem⟩
      exact ⟨List.take_left p y, by rw [List.drop_left]; exact (starTail_iff _ _).mpr hsem⟩

theorem matcherAccepts_mkMatcher_iff (t s : String) :
    matcherAccepts (mkMatcher t) s = true ↔ EntrySem t s := by
  by_cases hw : (t.data.any (fun c => c = '*')) = true
  · simp [matcherAccepts, mkMatcher, EntrySem, hw, globMatch_iff]
  · simp only [Bool.not_eq_true] at hw
    simp [matcherAccepts, mkMatcher, EntrySem, hw]

theorem findMatchingOrigin_eq (o : String) (ho : o ≠ "") (allowed : List OriginMatcher) :
    findMatchingOrigin (some o) allowed =
      if allowed.any (fun m => matcherAccepts m o) then some o else none := by
  by_cases hany : (allowed.any (fun m => matcherAccepts m o)) = true
  · obtain ⟨m, hm, hacc⟩ := List.any_eq_true.mp hany
    have hsome : (allowed.find? fun m2 => matcherAccepts m2 o).isSome := by
      rw [List.find?_isSome]
      exact ⟨m, hm, hacc⟩
    obtain ⟨m2, hm2⟩ := Option.isSome_iff_exists.mp hsome
    have hacc2 := List.find?_some hm2
    by_cases hwild : m2.isWildcard = true
    · simp [findMatchingOrigin, ho, hm2, hwild, hany]
    · simp only [Bool.not_eq_true] at hwild
      have hval : m2.value = o := by
        unfold matcherAccepts at hacc2
        simp only [hwild] at hacc2
        simpa using hacc2
      simp [findMatchingOrigin, ho, hm2, hwild, hany, hval]
  · have hfind : allowed.find? (fun m2 => matcherAccepts m2 o) = none := by
      rw [List.find?_eq_none]
      intro m hm
      simp only [Bool.not_eq_true]
      by_contra hacc
      exact hany (List.any_eq_true.mpr ⟨m, hm, by simpa using hacc⟩)
    simp only [Bool.not_eq_true] at hany
    simp [findMatchingOrigin, ho, hfind, hany]

/-! ## Helper lemmas: ordering, find?, stored-name invariant -/

theorem lexLe_total (x y : List Char) : lexLe x y = true ∨ lexLe y x = true := by
  induction x generalizing y with
  | nil => left; rfl
  | cons a as ih =>
    cases y with
    | nil => right; rfl
    | cons b bs =>
      rcases Nat.lt_trichotomy a.toNat b.toNat with h | h | h
      · left
        simp [lexLe, h]
      · have h1 : ¬ a.toNat < b.toNat := by omega
        have h2 : ¬ b.toNat < a.toNat := by omega
        rcases ih bs with hl | hl
        · left; simp [lexLe, h1, h2, hl]
        · right; simp [lexLe, h1, h2, hl]
      · right
        simp [lexLe, h]

theorem lexLe_trans (x y z : List Char) (h1 : lexLe x y = true) (h2 : lexLe y z = true) :
    lexLe x z = true := by
  induction x generalizing y z with
  | nil => rfl
  | cons a as ih =>
    cases y with
    | nil => simp [lexLe] at h1
    | cons b bs =>
      cases z with
      | nil => simp [lexLe] at h2
      | cons c cs =>
        simp only [lexLe] at h1 h2 ⊢
        by_cases hab : a.toNat < b.toNat
        · by_cases hbc : b.toNat < c.toNat
          · have : a.toNat < c.toNat := Nat.lt_trans hab hbc
            simp [this]
          · by_cases hcb : c.toNat < b.toNat
            · simp [hbc, hcb] at h2
            · have hbcn : b.toNat = c.toNat := by omega
              have : a.toNat < c.toNat := by omega
              simp [this]
        · by_cases hba : b.toNat < a.toNat
          · simp [hab, hba] at h1
          · have hban : a.toNat = b.toNat := by omega
            by_cases hbc : b.toNat < c.toNat
            · have : a.toNat < c.toNat := by omega
              simp [this]
            · by_cases hcb : c.toNat < b.toNat
              · simp [hbc, hcb] at h2
              · have hbcn : b.toNat = c.toNat := by omega
                have g1 : ¬ a.toNat < c.toNat := by omega
                have g2 : ¬ c.toNat < a.toNat := by omega
                simp only [hab, hba, if_neg, ite_false] at h1
                simp only [hbc, hcb, if_neg, ite_false] at h2
                simp only [g1, g2, if_neg, ite_false]
                exact ih bs cs h1 h2

instance : IsTotal ProjectRecord createdDesc :=
  ⟨fun a b => lexLe_total b.created_at.data a.created_at.data⟩

instance : IsTrans ProjectRecord createdDesc :=
  ⟨fun a b c hab hbc => lexLe_trans c.created_at.data b.created_at.data a.created_at.data hbc hab⟩

theorem find?_append_of_none {α : Type} (p : α → Bool) (l1 l2 : List α)
    (h : ∀ x ∈ l1, p x = false) : (l1 ++ l2).find? p = l2.find? p := by
  induction l1 with
  | nil => rfl
  | cons a t ih =>
    have ha : p a = false := h a (List.mem_cons_self a t)
    rw [List.cons_append, List.find?_cons_of_neg _ (by simp [ha]), ih]
    intro x hx
    exact h x (List.mem_cons_of_mem a hx)

theorem namesOk_append (store : List ProjectRecord) (r : ProjectRecord)
    (h : NamesOk store) (hr : jsTrim r.name ≠ "") : NamesOk (store ++ [r]) := by
  intro x hx
  rcases List.mem_append.mp hx with hm | hm
  · exact h x hm
  · rw [List.mem_singleton] at hm
    rw [hm]
    exact hr

theorem namesOk_postProject (store : List ProjectRecord) (nextId : Int) (now : String)
    (dbOk : Bool) (body : Option ReqBody) (h : NamesOk store) :
    NamesOk (postProject store nextId now dbOk body).store := by
  cases body with
  | none => exact h
  | some b =>
    obtain ⟨bname, bdesc⟩ := b
    cases bname with
    | none => exact h
    | some jv =>
      cases jv with
      | jnull => exact h
      | jnum k => exact h
      | jother => exact h
      | jstr nm =>
        show NamesOk (postProject store nextId now dbOk
          (some (ReqBody.mk (some (JVal.jstr nm)) bdesc))).store
        unfold postProject
        by_cases hlen : (jsTrim nm).length = 0
        · simp only [hlen, if_true, ite_true]
          exact h
        · simp only [hlen, if_false, ite_false]
          cases dbOk with
          | false =>
            simp only [Bool.false_eq_true, if_false, ite_false]
            exact h
          | true =>
            simp only [ite_true]
            exact namesOk_append store _ h (jsTrim_jsTrim_ne_empty nm hlen)

theorem namesOk_patchApply (store : List ProjectRecord) (id : Int)
    (nameUpd : Option String) (descUpd : Option (Option String))
    (h : NamesOk store)
    (hname : ∀ n, nameUpd = some n → jsTrim n ≠ "") :
    NamesOk (patchApply store id nameUpd descUpd).store := by
  unfold patchApply
  by_cases hempty : nameUpd.isNone ∧ descUpd.isNone
  · rw [if_pos hempty]
    exact h
  · rw [if_neg hempty]
    have hstore2 : NamesOk (store.map fun r =>
        if r.id == id then applyUpd nameUpd descUpd r else r) := by
      intro x hx
      obtain ⟨r, hr, hrx⟩ := List.mem_map.mp hx
      by_cases hid : (r.id == id) = true
      · rw [if_pos hid] at hrx
        rw [← hrx]
        unfold applyUpd
        cases hnu : nameUpd with
        | none =>
          simp only [Option.getD]
          exact h r hr
        | some n =>
          simp only [Option.getD]
          exact hname n hnu
      · rw [if_neg hid] at hrx
        rw [← hrx]
        exact h r hr
    by_cases hany : (store.any fun r => r.id == id) = true
    · rw [if_pos hany]
      cases hfind : (store.map fun r => if r.id == id then applyUpd nameUpd descUpd r else r).find?
          (fun r => r.id == id) with
      | none =>
        simp only [hfind]
        exact hstore2
      | some r2 =>
        simp only [hfind]
        exact hstore2
    · rw [if_neg hany]
      exact h

theorem namesOk_patchProject (store : List ProjectRecord) (idParam : String)
    (body : Option ReqBody) (h : NamesOk store) :
    NamesOk (patchProject store idParam body).store := by
  unfold patchProject
  cases hpid : jsParseInt idParam with
  | none => exact h
  | some id =>
    cases body with
    | none => exact h
    | some b =>
      obtain ⟨bname, bdesc⟩ := b
      cases bname with
      | none => exact namesOk_patchApply store id _ _ h (by intro n hn; cases hn)
      | some jv =>
        cases jv with
        | jnull => exact namesOk_patchApply store id _ _ h (by intro n hn; cases hn)
        | jnum k => exact namesOk_patchApply store id _ _ h (by intro n hn; cases hn)
        | jother => exact namesOk_patchApply store id _ _ h (by intro n hn; cases hn)
        | jstr nm =>
          by_cases hlen : (jsTrim nm).length = 0
          · simp only [hlen, if_true, ite_true]
            exact h
          · simp only [hlen, if_false, ite_false]
            refine namesOk_patchApply store id _ _ h ?_
            intro n hn
            rw [Option.some_inj] at hn
            rw [← hn]
            exact jsTrim_jsTrim_ne_empty nm hlen

theorem namesOk_deleteProject (store : List ProjectRecord) (idParam : String)
    (h : NamesOk store) : NamesOk (deleteProject store idParam).store := by
  unfold deleteProject
  cases hpid : jsParseInt idParam with
  | none => exact h
  | some id =>
    by_cases hany : (store.any fun r => r.id == id) = true
    · simp only [hany, if_true, ite_true]
      intro x hx
      exact h x (List.mem_of_mem_filter hx)
    · simp only [Bool.not_eq_true] at hany
      simp only [hany, Bool.false_eq_true, if_false, ite_false]
      exact h

theorem lexLe_refl (x : List Char) : lexLe x x = true := by
  induction x with
  | nil => rfl
  | cons a as ih => simp [lexLe, ih]

/-! ## Claim theorems -/

/-- Claim C1: for every configured allow-list string, the parsed matchers
accept exactly the origins described by the entry semantics (wildcard
entries match the interleavings of their literal chunks, other entries
match by equality); the first accepting matcher determines the match, a
matched origin is echoed in `Access-Control-Allow-Origin`, and a present
origin matching no entry is rejected with 403 and the
`Origin not allowed` error body regardless of the method. -/
theorem c1_origin_guard (raw : String) :
    (∀ m ∈ parseAllowedOrigins raw, ∀ s, matcherAccepts m s = true ↔ EntrySem m.value s) ∧
    (∀ o, o ≠ "" →
      findMatchingOrigin (some o) (parseAllowedOrigins raw) =
        if (parseAllowedOrigins raw).any (fun m => matcherAccepts m o) then some o else none) ∧
    (∀ handler req o, req.origin = some o → o ≠ "" →
      ((∀ m ∈ parseAllowedOrigins raw, matcherAccepts m o = false) →
        appHandle raw handler req =
          HttpResponse.mk 403 [] (some (RespBody.errorMsg "Origin not allowed"))) ∧
      ((∃ m ∈ parseAllowedOrigins raw, matcherAccepts m o = true) →
        ("Access-Control-Allow-Origin", o) ∈ (appHandle raw handler req).headers)) := by
  refine ⟨?_, ?_, ?_⟩
  · intro m hm s
    obtain ⟨t, ht, rfl⟩ := List.mem_map.mp hm
    exact matcherAccepts_mkMatcher_iff t s
  · intro o ho
    exact findMatchingOrigin_eq o ho (parseAllowedOrigins raw)
  · intro handler req o ho hne
    constructor
    · intro hall
      have hfm : findMatchingOrigin (some o) (parseAllowedOrigins raw) = none := by
        rw [findMatchingOrigin_eq o hne]
        have : ((parseAllowedOrigins raw).any fun m => matcherAccepts m o) = false := by
          rw [List.any_eq_false]
          intro m hm
          simp [hall m hm]
        simp [this]
      simp [appHandle, ho, hfm, originTruthy, hne]
    · rintro ⟨m, hm, hacc⟩
      have hfm : findMatchingOrigin (some o) (parseAllowedOrigins raw) = some o := by
        rw [findMatchingOrigin_eq o hne]
        have : ((parseAllowedOrigins raw).any fun m2 => matcherAccepts m2 o) = true :=
          List.any_eq_true.mpr ⟨m, hm, hacc⟩
        simp [this]
      by_cases hopt : (req.method == Method.OPTIONS) = true
      · simp [appHandle, ho, hfm, hopt, originHeaders]
      · simp only [Bool.not_eq_true] at hopt
        simp [appHandle, ho, hfm, hopt, originHeaders]

/-- Claim C1 witness: a disallowed origin is rejected with 403 on a
concrete configuration, and an allowed wildcard origin is echoed. -/
theorem c1_origin_guard_witness :
    appHandle "https://app.example.com,https://*.pages.dev"
        (fun _ => notFoundResponse)
        (AppRequest.mk Method.GET "/projects" (some "https://evil.example")) =
      HttpResponse.mk 403 [] (some (RespBody.errorMsg "Origin not allowed")) ∧
    ("Access-Control-Allow-Origin", "https://site.pages.dev") ∈
      (appHandle "https://app.example.com,https://*.pages.dev"
        (fun _ => notFoundResponse)
        (AppRequest.mk Method.POST "/projects" (some "https://site.pages.dev"))).headers := by
  constructor
  · exact ((c1_origin_guard "https://app.example.com,https://*.pages.dev").2.2
      (fun _ => notFoundResponse)
      (AppRequest.mk Method.GET "/projects" (some "https://evil.example"))
      "https://evil.example" rfl (by decide)).1 (by decide)
  · exact ((c1_origin_guard "https://app.example.com,https://*.pages.dev").2.2
      (fun _ => notFoundResponse)
      (AppRequest.mk Method.POST "/projects" (some "https://site.pages.dev"))
      "https://site.pages.dev" rfl (by decide)).2
      ⟨mkMatcher "https://*.pages.dev", by decide, by decide⟩

/-- Claim C10: an `OPTIONS` request whose origin is absent (or falsy) or
matches the allow-list is answered by the middleware itself with an empty
204 before any route handler runs: the response does not depend on the
handler (hence on the path), and it is never the 404 not-found
response. -/
theorem c10_options_short_circuit (raw : String) (req : AppRequest)
    (hm : req.method = Method.OPTIONS)
    (hok : originTruthy req.origin = false ∨
      (findMatchingOrigin req.origin (parseAllowedOrigins raw)).isSome = true) :
    ∀ handler h2 : AppRequest → HttpResponse,
      (appHandle raw handler req).status = 204 ∧
      (appHandle raw handler req).jsonBody = none ∧
      appHandle raw handler req = appHandle raw h2 req ∧
      (appHandle raw handler req).status ≠ 404 := by
  intro handler h2
  have hcond : (originTruthy req.origin &&
      (findMatchingOrigin req.origin (parseAllowedOrigins raw)).isNone) = false := by
    rcases hok with h | h
    · simp [h]
    · cases hfm : findMatchingOrigin req.origin (parseAllowedOrigins raw) with
      | none =>
        rw [hfm] at h
        exact Bool.noConfusion h
      | some v => simp [hfm]
  have hopt : (req.method == Method.OPTIONS) = true := by
    rw [hm]
    rfl
  refine ⟨?_, ?_, ?_, ?_⟩ <;> simp [appHandle, hcond, hopt]

/-- Claim C10 witness: an `OPTIONS` request without an origin to an
unrouted path yields 204 with an empty body even though the downstream
handler would answer 404. -/
theorem c10_options_short_circuit_witness :
    (appHandle "" (fun _ => notFoundResponse)
        (AppRequest.mk Method.OPTIONS "/no-such-route" none)).status = 204 ∧
    (appHandle "" (fun _ => notFoundResponse)
        (AppRequest.mk Method.OPTIONS "/no-such-route" none)).jsonBody = none ∧
    (appHandle "" (fun _ => notFoundResponse)
        (AppRequest.mk Method.OPTIONS "/no-such-route" none)).status ≠ 404 := by
  have h := c10_options_short_circuit "" (AppRequest.mk Method.OPTIONS "/no-such-route" none)
    rfl (Or.inl (by decide)) (fun _ => notFoundResponse) (fun _ => notFoundResponse)
  exact ⟨h.1, h.2.1, h.2.2.2⟩

/-- Claim C2 counterexample: the id string `12abc` is not numeric, yet the
get-by-id handler does not return 400 — `Number.parseInt` reads the prefix
`12`, the backend is consulted, and the empty store yields 404. -/
theorem c2_counterexample :
    decimalNumeral "12abc" = false ∧
    (getProject [] "12abc").resp.status = 404 ∧
    ¬ (getProject [] "12abc").resp.status = 400 ∧
    (getProject [] "12abc").consulted = true := by decide

/-- Claim C2 (amended): an id fails parsing exactly when it has no leading
integer (optional whitespace, optional sign, at least one digit); such ids
make GET, PATCH and DELETE return 400 `Invalid project id` without
touching the backend, while any other id is read as its leading integer:
GET then yields 404 when no row has that id and 200 with the row
otherwise. -/
theorem c2_get_by_id (idParam : String) (store : List ProjectRecord) (body : Option ReqBody) :
    (jsParseInt idParam = none ↔ ¬ HasLeadingInt idParam) ∧
    (jsParseInt idParam = none →
      getProject store idParam =
        HandlerOut.mk (Resp.mk 400 (RespBody.errorMsg "Invalid project id")) store false ∧
      patchProject store idParam body =
        HandlerOut.mk (Resp.mk 400 (RespBody.errorMsg "Invalid project id")) store false ∧
      deleteProject store idParam =
        HandlerOut.mk (Resp.mk 400 (RespBody.errorMsg "Invalid project id")) store false) ∧
    (∀ id, jsParseInt idParam = some id →
      (store.find? (fun r => r.id == id) = none →
        getProject store idParam =
          HandlerOut.mk (Resp.mk 404 (RespBody.errorMsg "Project not found")) store true) ∧
      (∀ r, store.find? (fun r2 => r2.id == id) = some r →
        getProject store idParam =
          HandlerOut.mk (Resp.mk 200 (RespBody.record r)) store true)) := by
  refine ⟨jsParseInt_eq_none_iff idParam, ?_, ?_⟩
  · intro hnone
    refine ⟨?_, ?_, ?_⟩
    · simp [getProject, hnone]
    · simp [patchProject, hnone]
    · simp [deleteProject, hnone]
  · intro id hid
    constructor
    · intro hfind
      simp [getProject, hid, hfind]
    · intro r hfind
      simp [getProject, hid, hfind]

/-- Claim C2 witness: concrete runs of the amended statement on a
one-row store. -/
theorem c2_get_by_id_witness :
    getProject [ProjectRecord.mk 1 "a" none "t"] "zz" =
      HandlerOut.mk (Resp.mk 400 (RespBody.errorMsg "Invalid project id"))
        [ProjectRecord.mk 1 "a" none "t"] false ∧
    getProject [ProjectRecord.mk 1 "a" none "t"] "1" =
      HandlerOut.mk (Resp.mk 200 (RespBody.record (ProjectRecord.mk 1 "a" none "t")))
        [ProjectRecord.mk 1 "a" none "t"] true ∧
    getProject [ProjectRecord.mk 1 "a" none "t"] "7" =
      HandlerOut.mk (Resp.mk 404 (RespBody.errorMsg "Project not found"))
        [ProjectRecord.mk 1 "a" none "t"] true := by
  refine ⟨?_, ?_, ?_⟩
  · exact ((c2_get_by_id "zz" [ProjectRecord.mk 1 "a" none "t"] none).2.1 (by decide)).1
  · exact ((c2_get_by_id "1" [ProjectRecord.mk 1 "a" none "t"] none).2.2 1 (by decide)).2
      (ProjectRecord.mk 1 "a" none "t") (by decide)
  · exact ((c2_get_by_id "7" [ProjectRecord.mk 1 "a" none "t"] none).2.2 7 (by decide)).1
      (by decide)

/-- Claim C3: a create request whose body is invalid JSON, lacks a string
name, or whose name trims to empty is answered 400 with no backend write;
with a valid name and a successful write the handler answers 201 with the
created record. -/
theorem c3_create (store : List ProjectRecord) (nextId : Int) (now : String)
    (dbOk : Bool) (body : Option ReqBody) :
    (createRejected body = true →
      postProject store nextId now dbOk body =
        HandlerOut.mk (Resp.mk 400 (RespBody.errorMsg "Name is required")) store false) ∧
    (∀ b nm, body = some b → b.name = some (JVal.jstr nm) → (jsTrim nm).length ≠ 0 →
      dbOk = true →
      postProject store nextId now dbOk body =
        HandlerOut.mk
          (Resp.mk 201 (RespBody.record
            (ProjectRecord.mk nextId (jsTrim nm) (d1CreateDesc b.description) now)))
          (store ++ [ProjectRecord.mk nextId (jsTrim nm) (d1CreateDesc b.description) now])
          true) := by
  constructor
  · intro hcr
    cases body with
    | none => rfl
    | some b =>
      obtain ⟨bname, bdesc⟩ := b
      cases bname with
      | none => rfl
      | some jv =>
        cases jv with
        | jnull => rfl
        | jnum k => rfl
        | jother => rfl
        | jstr nm =>
          have hlen : (jsTrim nm).length = 0 := by
            simpa [createRejected] using hcr
          simp [postProject, hlen]
  · intro b nm hb hbn hlen hdb
    subst hb
    subst hdb
    obtain ⟨bname, bdesc⟩ := b
    simp only at hbn
    subst hbn
    simp [postProject, hlen]

/-- Claim C3 witness: a whitespace-only name is rejected and a valid name
is created. -/
theorem c3_create_witness :
    postProject [] 1 "t" true (some (ReqBody.mk (some (JVal.jstr "  ")) none)) =
      HandlerOut.mk (Resp.mk 400 (RespBody.errorMsg "Name is required")) [] false ∧
    postProject [] 1 "t" true (some (ReqBody.mk (some (JVal.jstr " hi ")) none)) =
      HandlerOut.mk (Resp.mk 201 (RespBody.record (ProjectRecord.mk 1 (jsTrim " hi ") none "t")))
        [ProjectRecord.mk 1 (jsTrim " hi ") none "t"] true := by
  constructor
  · exact (c3_create [] 1 "t" true (some (ReqBody.mk (some (JVal.jstr "  ")) none))).1 (by decide)
  · exact (c3_create [] 1 "t" true (some (ReqBody.mk (some (JVal.jstr " hi ")) none))).2
      (ReqBody.mk (some (JVal.jstr " hi ")) none) " hi " rfl rfl (by decide) rfl

/-- Claim C4: in the Supabase create payload a string description is sent
trimmed, an explicit null is sent as null, and an omitted field
contributes no `description` key at all, leaving the backend default. -/
theorem c4_create_description (nameField now d : String) :
    ("description", PayloadVal.pstr (jsTrim d)) ∈
      buildCreatePayload nameField now (some (JVal.jstr d)) ∧
    ("description", PayloadVal.pnull) ∈ buildCreatePayload nameField now (some JVal.jnull) ∧
    (∀ kv ∈ buildCreatePayload nameField now none, kv.1 ≠ "description") ∧
    ("name", PayloadVal.pstr (jsTrim nameField)) ∈ buildCreatePayload nameField now none := by
  refine ⟨?_, ?_, ?_, ?_⟩
  · simp [buildCreatePayload]
  · simp [buildCreatePayload]
  · intro kv hkv
    simp only [buildCreatePayload, List.mem_cons, List.not_mem_nil, or_false] at hkv
    rcases hkv with h | h
    · rw [h]
      exact (by decide : ("name" : String) ≠ "description")
    · rw [h]
      exact (by decide : ("created_at" : String) ≠ "description")
  · simp [buildCreatePayload]

/-- Claim C4 witness: concrete payloads for the three description
shapes. -/
theorem c4_create_description_witness :
    ("description", PayloadVal.pstr (jsTrim " d ")) ∈
      buildCreatePayload "n" "t" (some (JVal.jstr " d ")) ∧
    ("description", PayloadVal.pnull) ∈ buildCreatePayload "n" "t" (some JVal.jnull) ∧
    ("name", PayloadVal.pstr (jsTrim "n")).1 ≠ "description" := by
  refine ⟨(c4_create_description "n" "t" " d ").1, (c4_create_description "n" "t" " d ").2.1, ?_⟩
  exact (c4_create_description "n" "t" " d ").2.2.1 ("name", PayloadVal.pstr (jsTrim "n"))
    (by decide)

/-- Claim C5: a patch with a parseable id and a body containing neither a
string name nor a string-or-null description is answered 400
`No fields provided to update` with no backend write; a body whose name
trims to empty is answered 400 `Name cannot be empty`. -/
theorem c5_patch_validation (store : List ProjectRecord) (idParam : String) (id : Int)
    (b : ReqBody) (hid : jsParseInt idParam = some id) :
    (patchNoFields b = true →
      patchProject store idParam (some b) =
        HandlerOut.mk (Resp.mk 400 (RespBody.errorMsg "No fields provided to update")) store false) ∧
    (∀ nm, b.name = some (JVal.jstr nm) → (jsTrim nm).length = 0 →
      patchProject store idParam (some b) =
        HandlerOut.mk (Resp.mk 400 (RespBody.errorMsg "Name cannot be empty")) store false) := by
  obtain ⟨bname, bdesc⟩ := b
  constructor
  · intro hnf
    cases bname with
    | some jv =>
      cases jv with
      | jstr nm => simp [patchNoFields] at hnf
      | jnull =>
        cases bdesc with
        | none => simp [patchProject, hid, patchApply, descUpdate]
        | some jv2 =>
          cases jv2 with
          | jstr d => simp [patchNoFields] at hnf
          | jnull => simp [patchNoFields] at hnf
          | jnum k => simp [patchProject, hid, patchApply, descUpdate]
          | jother => simp [patchProject, hid, patchApply, descUpdate]
      | jnum k =>
        cases bdesc with
        | none => simp [patchProject, hid, patchApply, descUpdate]
        | some jv2 =>
          cases jv2 with
          | jstr d => simp [patchNoFields] at hnf
          | jnull => simp [patchNoFields] at hnf
          | jnum k2 => simp [patchProject, hid, patchApply, descUpdate]
          | jother => simp [patchProject, hid, patchApply, descUpdate]
      | jother =>
        cases bdesc with
        | none => simp [patchProject, hid, patchApply, descUpdate]
        | some jv2 =>
          cases jv2 with
          | jstr d => simp [patchNoFields] at hnf
          | jnull => simp [patchNoFields] at hnf
          | jnum k2 => simp [patchProject, hid, patchApply, descUpdate]
          | jother => simp [patchProject, hid, patchApply, descUpdate]
    | none =>
      cases bdesc with
      | none => simp [patchProject, hid, patchApply, descUpdate]
      | some jv2 =>
        cases jv2 with
        | jstr d => simp [patchNoFields] at hnf
        | jnull => simp [patchNoFields] at hnf
        | jnum k2 => simp [patchProject, hid, patchApply, descUpdate]
        | jother => simp [patchProject, hid, patchApply, descUpdate]
  · intro nm hbn hlen
    simp only at hbn
    subst hbn
    simp [patchProject, hid, hlen]

/-- Claim C5 witness: the empty body and a whitespace-only name on a
one-row store. -/
theorem c5_patch_validation_witness :
    patchProject [ProjectRecord.mk 1 "a" none "t"] "1" (some (ReqBody.mk none none)) =
      HandlerOut.mk (Resp.mk 400 (RespBody.errorMsg "No fields provided to update"))
        [ProjectRecord.mk 1 "a" none "t"] false ∧
    patchProject [ProjectRecord.mk 1 "a" none "t"] "1"
        (some (ReqBody.mk (some (JVal.jstr " ")) (some (JVal.jstr "d")))) =
      HandlerOut.mk (Resp.mk 400 (RespBody.errorMsg "Name cannot be empty"))
        [ProjectRecord.mk 1 "a" none "t"] false := by
  constructor
  · exact (c5_patch_validation [ProjectRecord.mk 1 "a" none "t"] "1" 1
      (ReqBody.mk none none) (by decide)).1 (by decide)
  · exact (c5_patch_validation [ProjectRecord.mk 1 "a" none "t"] "1" 1
      (ReqBody.mk (some (JVal.jstr " ")) (some (JVal.jstr "d"))) (by decide)).2 " " rfl (by decide)

/-- Claim C6: starting from any store whose names are all non-empty after
trim, every sequence of create, partial-update and delete operations
accepted by the handlers preserves that invariant — no stored project ever
has an empty or whitespace-only name. -/
theorem c6_name_invariant (store : List ProjectRecord) (ops : List Op)
    (h : NamesOk store) : NamesOk (runOps store ops) := by
  induction ops generalizing store with
  | nil => exact h
  | cons op rest ih =>
    show NamesOk (runOps (applyOp store op) rest)
    refine ih _ ?_
    cases op with
    | create nextId now dbOk body => exact namesOk_postProject store nextId now dbOk body h
    | patch idParam body => exact namesOk_patchProject store idParam body h
    | delete idParam => exact namesOk_deleteProject store idParam h

/-- Claim C6 witness: a concrete create-then-update run from the empty
store keeps the invariant. -/
theorem c6_name_invariant_witness :
    NamesOk (runOps []
      [Op.create 1 "2024-01-01T00:00:00Z" true (some (ReqBody.mk (some (JVal.jstr " hi ")) none)),
       Op.patch "1" (some (ReqBody.mk (some (JVal.jstr " renamed ")) none))]) :=
  c6_name_invariant [] _ (by intro r hr; exact absurd hr (List.not_mem_nil r))

/-- Claim C8: the Pexels page parameters equal the spec's
characterisation — the parsed value when it is a positive integer, the
defaults 1 and 10 whenever the parameter is absent, non-numeric, zero or
negative — and the same computed value is the response fallback; in
particular `page=-5` gives 1 and `per_page=abc` gives 10. -/
theorem c8_pexels_params (pageQ perPageQ : Option String) :
    (pexelsParams pageQ perPageQ).1 = specPositiveIntOrDefault pageQ 1 ∧
    (pexelsParams pageQ perPageQ).2 = specPositiveIntOrDefault perPageQ 10 ∧
    (pexelsParams (some "-5") perPageQ).1 = 1 ∧
    (pexelsParams pageQ (some "abc")).2 = 10 ∧
    (∀ n, pexelsNormalizedPage none n = n) := by
  have hspec : ∀ (q : Option String) (d : Int),
      parsePositiveInt q d = specPositiveIntOrDefault q d := by
    intro q d
    cases q with
    | none => rfl
    | some v =>
      by_cases hv : v = ""
      · subst hv
        rfl
      · simp only [parsePositiveInt, specPositiveIntOrDefault, hv, if_false, ite_false]
        cases hp : jsParseInt v with
        | none => rfl
        | some n =>
          by_cases hn : n ≤ 0
          · show (if n ≤ 0 then d else n) = if 0 < n then n else d
            rw [if_pos hn, if_neg (by omega)]
          · show (if n ≤ 0 then d else n) = if 0 < n then n else d
            rw [if_neg hn, if_pos (by omega)]
  refine ⟨hspec pageQ 1, hspec perPageQ 10, ?_, ?_, ?_⟩
  · show parsePositiveInt (some "-5") 1 = 1
    decide
  · show parsePositiveInt (some "abc") 10 = 10
    decide
  · intro n
    rfl

/-- Claim C9: with the API key configured, a request whose prompt is
missing, not a string, or empty after trim is answered 400 without calling
the upstream API; an upstream response outside the 2xx range, or a network
failure, is answered 502 with the `AI request failed` error. -/
theorem c9_ai_complete (k : String) (hk : ¬ k = "") (b : AiBody) (upstream : AiUpstream) :
    (promptRejected b = true →
      aiComplete (some k) (some b) upstream =
        AiOut.mk 400 (AiRespBody.err "Prompt is required") false) ∧
    (∀ p, b.prompt = some (JVal.jstr p) → (jsTrim p).length ≠ 0 →
      (∀ st content, upstream = AiUpstream.response st content → ¬(200 ≤ st ∧ st ≤ 299) →
        aiComplete (some k) (some b) upstream =
          AiOut.mk 502 (AiRespBody.err "AI request failed") true) ∧
      (upstream = AiUpstream.networkFail →
        aiComplete (some k) (some b) upstream =
          AiOut.mk 502 (AiRespBody.err "AI request failed") true)) := by
  obtain ⟨bp, bm⟩ := b
  constructor
  · intro hpr
    cases bp with
    | none => simp [aiComplete, hk]
    | some jv =>
      cases jv with
      | jnull => simp [aiComplete, hk]
      | jnum n => simp [aiComplete, hk]
      | jother => simp [aiComplete, hk]
      | jstr p =>
        have hlen : (jsTrim p).length = 0 := by
          simpa [promptRejected] using hpr
        simp [aiComplete, hk, hlen]
  · intro p hp hlen
    simp only at hp
    subst hp
    constructor
    · intro st content hu hst
      subst hu
      simp [aiComplete, hk, hlen, hst]
    · intro hu
      subst hu
      simp [aiComplete, hk, hlen]

/-- Claim C9 witness: an empty prompt is rejected 400 without an upstream
call, and an upstream 500 yields 502. -/
theorem c9_ai_complete_witness :
    aiComplete (some "key") (some (AiBody.mk (some (JVal.jstr "")) none)) AiUpstream.networkFail =
      AiOut.mk 400 (AiRespBody.err "Prompt is required") false ∧
    aiComplete (some "key") (some (AiBody.mk (some (JVal.jstr "hi")) none))
        (AiUpstream.response 500 none) =
      AiOut.mk 502 (AiRespBody.err "AI request failed") true := by
  constructor
  · exact (c9_ai_complete "key" (by decide) (AiBody.mk (some (JVal.jstr "")) none)
      AiUpstream.networkFail).1 (by decide)
  · exact ((c9_ai_complete "key" (by decide) (AiBody.mk (some (JVal.jstr "hi")) none)
      (AiUpstream.response 500 none)).2 "hi" rfl (by decide)).1 500 none rfl (by decide)

/-- Claim C7: a successfully created project is returned by a subsequent
get with the returned id with the same name and description; listing
returns the stored rows sorted by `created_at` descending, so the new
record appears before every strictly older record; and the empty store
lists as an empty 200. -/
theorem c7_round_trip (store : List ProjectRecord) (nextId : Int) (now : String)
    (b : ReqBody) (nm : String) (idp : String)
    (hname : b.name = some (JVal.jstr nm)) (hnm : ¬ (jsTrim nm).length = 0)
    (hfresh : ∀ r ∈ store, r.id ≠ nextId)
    (hidp : jsParseInt idp = some nextId) :
    ∃ rec2 : ProjectRecord,
      (postProject store nextId now true (some b)).resp = Resp.mk 201 (RespBody.record rec2) ∧
      rec2.name = jsTrim nm ∧
      rec2.description = d1CreateDesc b.description ∧
      (getProject (postProject store nextId now true (some b)).store idp).resp =
        Resp.mk 200 (RespBody.record rec2) ∧
      (∃ listed, listProjects (postProject store nextId now true (some b)).store =
          Resp.mk 200 (RespBody.records listed) ∧
        rec2 ∈ listed ∧
        listed.Sorted createdDesc ∧
        (∀ i j : Fin listed.length, listed.get i = rec2 →
          lexLe rec2.created_at.data (listed.get j).created_at.data = false → i < j)) ∧
      listProjects [] = Resp.mk 200 (RespBody.records []) := by
  obtain ⟨bname, bdesc⟩ := b
  simp only at hname
  subst hname
  have hpost : postProject store nextId now true (some (ReqBody.mk (some (JVal.jstr nm)) bdesc)) =
      HandlerOut.mk
        (Resp.mk 201 (RespBody.record (ProjectRecord.mk nextId (jsTrim nm) (d1CreateDesc bdesc) now)))
        (store ++ [ProjectRecord.mk nextId (jsTrim nm) (d1CreateDesc bdesc) now]) true := by
    simp [postProject, hnm]
  refine ⟨ProjectRecord.mk nextId (jsTrim nm) (d1CreateDesc bdesc) now, ?_, rfl, rfl, ?_, ?_, rfl⟩
  · rw [hpost]
  · rw [hpost]
    have hf : (store ++ [ProjectRecord.mk nextId (jsTrim nm) (d1CreateDesc bdesc) now]).find?
        (fun r => r.id == nextId) =
        some (ProjectRecord.mk nextId (jsTrim nm) (d1CreateDesc bdesc) now) := by
      rw [find?_append_of_none _ _ _ (fun x hx => beq_eq_false_iff_ne.mpr (hfresh x hx))]
      exact List.find?_cons_of_pos _ (by simp)
    simp [getProject, hidp, hf]
  · rw [hpost]
    refine ⟨List.insertionSort createdDesc
      (store ++ [ProjectRecord.mk nextId (jsTrim nm) (d1CreateDesc bdesc) now]), rfl, ?_, ?_, ?_⟩
    · exact (List.perm_insertionSort createdDesc _).mem_iff.mpr (by simp)
    · exact List.sorted_insertionSort createdDesc _
    · intro i j hi hj
      have hsort : (List.insertionSort createdDesc
          (store ++ [ProjectRecord.mk nextId (jsTrim nm) (d1CreateDesc bdesc) now])).Sorted
            createdDesc :=
        List.sorted_insertionSort createdDesc _
      have hpair := List.pairwise_iff_get.mp hsort
      rcases lt_trichotomy i j with h | h | h
      · exact h
      · exfalso
        rw [← h, hi] at hj
        rw [lexLe_refl] at hj
        exact Bool.noConfusion hj
      · exfalso
        have hcd := hpair j i h
        simp only [hi] at hcd
        have hcd2 : lexLe
            (ProjectRecord.mk nextId (jsTrim nm) (d1CreateDesc bdesc) now).created_at.data
            ((List.insertionSort createdDesc (store ++
              [ProjectRecord.mk nextId (jsTrim nm) (d1CreateDesc bdesc) now])).get
              j).created_at.data = true := hcd
        rw [hj] at hcd2
        exact Bool.noConfusion hcd2

/-- Claim C7 witness: creating `A` in the empty store, then fetching id 1,
returns the same record, and it is listed. -/
theorem c7_round_trip_witness :
    ∃ rec2 : ProjectRecord,
      (postProject [] 1 "2024-06-01T00:00:00Z" true
          (some (ReqBody.mk (some (JVal.jstr "A")) none))).resp =
        Resp.mk 201 (RespBody.record rec2) ∧
      rec2.name = jsTrim "A" ∧
      rec2.description = d1CreateDesc (ReqBody.mk (some (JVal.jstr "A")) none).description ∧
      (getProject (postProject [] 1 "2024-06-01T00:00:00Z" true
          (some (ReqBody.mk (some (JVal.jstr "A")) none))).store "1").resp =
        Resp.mk 200 (RespBody.record rec2) ∧
      (∃ listed, listProjects (postProject [] 1 "2024-06-01T00:00:00Z" true
            (some (ReqBody.mk (some (JVal.jstr "A")) none))).store =
          Resp.mk 200 (RespBody.records listed) ∧
        rec2 ∈ listed ∧
        listed.Sorted createdDesc ∧
        (∀ i j : Fin listed.length, listed.get i = rec2 →
          lexLe rec2.created_at.data (listed.get j).created_at.data = false → i < j)) ∧
      listProjects [] = Resp.mk 200 (RespBody.records []) :=
  c7_round_trip [] 1 "2024-06-01T00:00:00Z" (ReqBody.mk (some (JVal.jstr "A")) none) "A" "1"
    rfl (by decide) (by intro r hr; exact absurd hr (List.not_mem_nil r)) (by decide)
